import Mathlib

/-!
Verification of the SimplexSolver repository (`simplex.py`).

The solver object is embedded shallowly: the mutable Python instance
becomes an explicit `SolverState` record, every method of `SimplexSolver`
becomes a Lean function of the same name, Python `Fraction` values become
`ℚ`, and the `while` loop of `run_simplex` becomes a fuel-indexed
recursion.  A Python `IndexError` raised during tableau construction is
modelled as a `Bool` success flag paired with the object state exactly as
the partially-mutated Python object would be left.  `sys.exit(0)` on an
infeasible pivot becomes the `RunResult.exited` constructor, which also
records whether the user-facing message was printed (it is only printed
when `enable_msg` is set).
-/

namespace SimplexVerify

/-- Variable labels: structural variables `x i`, slack variables `s i`,
and the sentinel label for the b column (Python strings "x%d", "s%d", "b"). -/
inductive Label where
  | x (i : Nat)
  | s (i : Nat)
  | b
deriving DecidableEq, Repr

/-- Keys of the solution dictionary returned by `get_current_solution`:
one per variable label plus the reserved key `'opt'`. -/
inductive SolKey where
  | var (l : Label)
  | opt
deriving DecidableEq, Repr

/-- The fields of a `SimplexSolver` instance (`__init__`). -/
structure SolverState where
  A : List (List ℚ)
  b : List ℚ
  c : List ℚ
  tableau : List (List ℚ)
  entering : List Label
  departing : List Label
deriving DecidableEq, Repr

/-- A freshly constructed solver: every field is the empty list. -/
def initSolver : SolverState := ⟨[], [], [], [], [], []⟩

/-- `_generate_identity(n)`: the n×n identity matrix. -/
def generate_identity (n : Nat) : List (List ℚ) :=
  (List.range n).map (fun i => (List.range n).map (fun j => if i = j then 1 else 0))

/-- The loop body of `add_slack_variables`: for each row index `i`,
append the i-th identity row and then `b[i]`.  Python raises IndexError
when `b[i]` is out of range; the flag records success, and on failure the
list holds exactly the rows the Python loop had already mutated (row `i`
itself has received its slack block but not its b entry). -/
def addSlackAux (slack : List (List ℚ)) (bv : List ℚ) :
    Nat → List (List ℚ) → List (List ℚ) × Bool
  | _, [] => ([], true)
  | i, row :: rest =>
    match slack.get? i, bv.get? i with
    | some srow, some bi =>
      let r := addSlackAux slack bv (i+1) rest
      ((row ++ srow ++ [bi]) :: r.1, r.2)
    | some srow, none => ((row ++ srow) :: rest, false)
    | none, _ => (row :: rest, false)

/-- `add_slack_variables()`. -/
def add_slack_variables (st : SolverState) : SolverState × Bool :=
  let slack := generate_identity st.tableau.length
  let r := addSlackAux slack st.b 0 st.tableau
  ({ st with tableau := r.1 }, r.2)

/-- `create_tableau()`: copy A, append slack blocks and b, then append
the objective row `-c ++ [0] * (len(b)+1)`. -/
def create_tableau (st : SolverState) : SolverState × Bool :=
  let st1 := { st with tableau := st.A }
  let r := add_slack_variables st1
  if r.2 then
    ({ r.1 with tableau :=
        r.1.tableau ++ [st.c.map (fun v => -v) ++ List.replicate (st.b.length + 1) (0:ℚ)] },
     true)
  else (r.1, false)

/-- The label-population loop of `set_simplex_input`: one entering label
per tableau column (`x i` for the first `nA0` columns, `s (i - nA0)` up to
the last column, the sentinel for the last), and a departing label for
each slack column. -/
def labelRange (nA0 nCols : Nat) : List Label × List Label :=
  ((List.range nCols).map (fun i =>
      if i < nA0 then Label.x i
      else if i < nCols - 1 then Label.s (i - nA0)
      else Label.b),
   (List.range nCols).filterMap (fun i =>
      if i < nA0 then none
      else if i < nCols - 1 then some (Label.s (i - nA0))
      else none))

/-- `set_simplex_input(A, b, c)`: append the converted rows of `A` to the
stored `A`, replace `b` and `c`, build the tableau, then append labels.
The label loop reads `len(self.A[0])`, which raises IndexError when the
stored `A` is empty; the flag records that, as well as a failure inside
`create_tableau`. -/
def set_simplex_input (st : SolverState) (A : List (List ℚ)) (b c : List ℚ) :
    SolverState × Bool :=
  let st1 : SolverState := { st with A := st.A ++ A, b := b, c := c }
  let r := create_tableau st1
  match r.2, r.1.A.head? with
  | false, _ => (r.1, false)
  | true, none => (r.1, false)
  | true, some a0 =>
    let nCols := (r.1.tableau.headD []).length
    let ls := labelRange a0.length nCols
    ({ r.1 with entering := r.1.entering ++ ls.1, departing := r.1.departing ++ ls.2 },
     true)

/-- The last entry of a row, `row[len(row)-1]`. -/
def lastEntry (row : List ℚ) : ℚ := row.getD (row.length - 1) 0

/-- The ratio `x[len(x)-1] / x[entering_index]` used by `get_departing_var`. -/
def rowRatio (j : Nat) (row : List ℚ) : ℚ := lastEntry row / row.getD j 0

/-- The condition of the first scan in `get_departing_var`:
`x[entering_index] != 0 and x[len(x)-1]/x[entering_index] > 0`. -/
def qualifies (j : Nat) (row : List ℚ) : Prop :=
  row.getD j 0 ≠ 0 ∧ 0 < rowRatio j row

instance (j : Nat) (row : List ℚ) : Decidable (qualifies j row) :=
  inferInstanceAs (Decidable (_ ∧ _))

/-- The first (`break`ing) scan of `get_departing_var`: the first row,
top to bottom, that `qualifies`, together with its index. -/
def findFirstRatio (j : Nat) : Nat → List (List ℚ) → Option (Nat × List ℚ)
  | _, [] => none
  | i, row :: rest =>
    if qualifies j row then some (i, row) else findFirstRatio j (i+1) rest

/-- The second scan of `get_departing_var`: rows with index greater than
`skip` and a strictly positive entering-column entry replace the current
best when their ratio is strictly smaller. -/
def minRatioScan (j skip : Nat) : Nat → List (List ℚ) → Nat × ℚ → Nat × ℚ
  | _, [], best => best
  | i, row :: rest, best =>
    if skip < i ∧ 0 < row.getD j 0 then
      if rowRatio j row < best.2 then minRatioScan j skip (i+1) rest (i, rowRatio j row)
      else minRatioScan j skip (i+1) rest best
    else minRatioScan j skip (i+1) rest best

/-- `get_departing_var(entering_index)`. -/
def get_departing_var (st : SolverState) (j : Nat) : Int :=
  match findFirstRatio j 0 st.tableau with
  | none => -1
  | some (skip, row) =>
    let minr := rowRatio j row
    if 0 < minr then ((minRatioScan j skip 0 st.tableau (skip, minr)).1 : Int)
    else (skip : Int)

/-- The scan of `get_entering_var`: keep the first strictly smaller value. -/
def mostNegScan : Nat → Nat × ℚ → List ℚ → Nat × ℚ
  | _, best, [] => best
  | i, best, v :: rest =>
    if v < best.2 then mostNegScan (i+1) (i, v) rest else mostNegScan (i+1) best rest

/-- `get_entering_var()`: index of the most negative element of the
bottom row (the whole bottom row, last entry included). -/
def get_entering_var (st : SolverState) : Nat :=
  let bottom := st.tableau.getD (st.tableau.length - 1) []
  (mostNegScan 0 (0, bottom.getD 0 0) bottom).1

/-- `find_pivot()`. -/
def find_pivot (st : SolverState) : Nat × Int :=
  (get_entering_var st, get_departing_var st (get_entering_var st))

/-- `pivot(pivot_index)` with `j, i = pivot_index`: divide the pivot row
by the pivot element, subtract from every other row its entering-column
entry times the normalized pivot row, and update the departing label. -/
def pivot (st : SolverState) (j i : Nat) : SolverState :=
  let pv := (st.tableau.getD i []).getD j 0
  let normRow := (st.tableau.getD i []).map (fun e => e / pv)
  let tab1 := st.tableau.set i normRow
  let tab2 := tab1.mapIdx (fun k row =>
    if k = i then row
    else List.zipWith (fun a sc => a - sc) row (normRow.map (fun y => y * row.getD j 0)))
  { st with tableau := tab2,
            departing := st.departing.set i (st.entering.getD j Label.b) }

/-- The loop of `should_terminate`: is there a negative entry at an index
other than the last one? -/
def hasNegNonLast (n : Nat) : Nat → List ℚ → Bool
  | _, [] => false
  | i, v :: rest => (decide (v < 0) && decide (i ≠ n - 1)) || hasNegNonLast n (i+1) rest

/-- `should_terminate()`. -/
def should_terminate (st : SolverState) : Bool :=
  let bottom := st.tableau.getD (st.tableau.length - 1) []
  !(hasNegNonLast bottom.length 0 bottom)

/-- `get_current_solution()`: one entry per non-sentinel entering label
(the basic value when the label is currently departing, else 0), plus the
`'opt'` entry `tableau[-1][len(tableau[0])-1]`. -/
def get_current_solution (st : SolverState) : List (SolKey × ℚ) :=
  (st.entering.filterMap (fun v =>
    if v = Label.b then none
    else if v ∈ st.departing then
      some (SolKey.var v, lastEntry (st.tableau.getD (st.departing.indexOf v) []))
    else some (SolKey.var v, 0)))
  ++ [(SolKey.opt,
       (st.tableau.getD (st.tableau.length - 1) []).getD
         ((st.tableau.getD 0 []).length - 1) 0)]

/-- The outcome of a run: a returned solution dictionary, a process exit
with the given status (recording whether the infeasibility message was
printed first), an uncaught IndexError during setup, or fuel exhaustion. -/
inductive RunResult where
  | sol (s : List (SolKey × ℚ))
  | exited (code : Nat) (msgShown : Bool)
  | err
  | fuelOut
deriving DecidableEq, Repr

/-- The `while not should_terminate()` loop of `run_simplex`. -/
def runLoop (emsg : Bool) : Nat → SolverState → RunResult
  | 0, _ => .fuelOut
  | fuel+1, st =>
    if should_terminate st then .sol (get_current_solution st)
    else
      let p := find_pivot st
      if p.2 < 0 then .exited 0 emsg
      else runLoop emsg fuel (pivot st p.1 p.2.toNat)

/-- `run_simplex(A, b, c, prob='max', enable_msg, latex)` on a freshly
constructed solver (the only mode exercised by the repository). -/
def run_simplex (A : List (List ℚ)) (b c : List ℚ) (emsg : Bool) (fuel : Nat) :
    RunResult :=
  let r := set_simplex_input initSolver A b c
  if r.2 then runLoop emsg fuel r.1 else .err

/-! ### Specification-side definition for the departing-row rule (C2) -/

/-- The replacement step of the claim's description: a later candidate
row replaces the current best exactly when its ratio is strictly smaller. -/
def replaceStep (j : Nat) (best : Nat × ℚ) (p : Nat × List ℚ) : Nat × ℚ :=
  if rowRatio j p.2 < best.2 then (p.1, rowRatio j p.2) else best

/-- Transcription of the claimed departing-row rule: the first row
(scanning the enumerated rows top to bottom) with a non-zero
entering-column entry and strictly positive ratio is the initial
candidate; it is then replaced by any row of strictly greater index whose
entering-column entry is strictly positive and whose ratio is strictly
smaller (rows at or before the candidate are never reconsidered); if no
row qualifies in the first scan the result is `-1`. -/
def departingSpec (st : SolverState) (j : Nat) : Int :=
  match st.tableau.enum.find? (fun p => decide (qualifies j p.2)) with
  | none => -1
  | some fp =>
    (((st.tableau.enum.filter
          (fun p => decide (fp.1 < p.1) && decide (0 < p.2.getD j 0))).foldl
        (replaceStep j) (fp.1, rowRatio j fp.2)).1 : Int)

/-- The first-scan loop agrees with `find?` over the enumerated rows. -/
theorem findFirstRatio_eq_find? (j : Nat) :
    ∀ (l : List (List ℚ)) (i : Nat),
      findFirstRatio j i l = (List.enumFrom i l).find? (fun p => decide (qualifies j p.2))
  | [], _ => rfl
  | row :: rest, i => by
    by_cases h : qualifies j row <;>
      simp [findFirstRatio, List.enumFrom, List.find?, h, findFirstRatio_eq_find? j rest (i+1)]

/-- The second-scan loop agrees with filtering the enumerated rows to
those of greater index and positive entering-column entry, followed by
the strict-improvement replacement fold. -/
theorem minRatioScan_eq_foldl (j skip : Nat) :
    ∀ (l : List (List ℚ)) (i : Nat) (best : Nat × ℚ),
      minRatioScan j skip i l best =
        ((List.enumFrom i l).filter
            (fun p => decide (skip < p.1) && decide (0 < p.2.getD j 0))).foldl
          (replaceStep j) best
  | [], _, _ => rfl
  | row :: rest, i, best => by
    by_cases h1 : skip < i
    · by_cases h2 : 0 < row.getD j 0
      · by_cases h3 : rowRatio j row < best.2 <;>
          simp [minRatioScan, List.enumFrom, List.filter, h1, h2, h3, replaceStep,
            minRatioScan_eq_foldl j skip rest (i+1), -List.getD_eq_getElem?_getD]
      · simp [minRatioScan, List.enumFrom, List.filter, h1, h2,
          minRatioScan_eq_foldl j skip rest (i+1), -List.getD_eq_getElem?_getD]
    · simp [minRatioScan, List.enumFrom, List.filter, h1,
        minRatioScan_eq_foldl j skip rest (i+1), -List.getD_eq_getElem?_getD]

/-- Characterization of a successful first scan: the hit lies at or after
the start index, inside the list, is the row stored at that position, and
satisfies the scan condition. -/
theorem findFirstRatio_some (j : Nat) :
    ∀ (l : List (List ℚ)) (i k : Nat) (row : List ℚ),
      findFirstRatio j i l = some (k, row) →
      i ≤ k ∧ k - i < l.length ∧ l.getD (k - i) [] = row ∧ qualifies j row
  | [], i, k, row => by intro h; exact absurd h (by simp [findFirstRatio])
  | r :: rest, i, k, row => by
    intro h
    by_cases hq : qualifies j r
    · rw [findFirstRatio, if_pos hq] at h
      obtain ⟨hk, hr⟩ := Prod.mk.injEq .. ▸ Option.some.inj h
      subst hk; subst hr
      exact ⟨le_refl _, by simp, by simp, hq⟩
    · rw [findFirstRatio, if_neg hq] at h
      obtain ⟨h1, h2, h3, h4⟩ := findFirstRatio_some j rest (i+1) k row h
      refine ⟨by omega, by simp only [List.length_cons]; omega, ?_, h4⟩
      have hki : k - i = (k - (i+1)) + 1 := by omega
      rw [hki, List.getD_cons_succ]
      exact h3

/-- The result of the second scan is either the initial candidate or a
position of the scanned list whose index exceeds `skip` and whose
entering-column entry is strictly positive. -/
theorem minRatioScan_cases (j skip : Nat) :
    ∀ (l : List (List ℚ)) (i : Nat) (best : Nat × ℚ),
      minRatioScan j skip i l best = best ∨
      ∃ pos, pos < l.length ∧
        minRatioScan j skip i l best = (i + pos, rowRatio j (l.getD pos [])) ∧
        skip < i + pos ∧ 0 < (l.getD pos []).getD j 0
  | [], _, _ => Or.inl rfl
  | row :: rest, i, best => by
    by_cases h1 : skip < i ∧ 0 < row.getD j 0
    · by_cases h2 : rowRatio j row < best.2
      · have hstep : minRatioScan j skip i (row :: rest) best =
            minRatioScan j skip (i+1) rest (i, rowRatio j row) := by
          rw [minRatioScan, if_pos h1, if_pos h2]
        rcases minRatioScan_cases j skip rest (i+1) (i, rowRatio j row) with h | ⟨pos, hp, he, hs, he2⟩
        · right
          exact ⟨0, by simp, by rw [hstep, h]; simp, by simpa using h1.1, by simpa using h1.2⟩
        · right
          refine ⟨pos + 1, by simpa using hp, ?_, by omega, by simpa using he2⟩
          rw [hstep, he]
          simp [List.getD_cons_succ]
          omega
      · have hstep : minRatioScan j skip i (row :: rest) best =
            minRatioScan j skip (i+1) rest best := by
          rw [minRatioScan, if_pos h1, if_neg h2]
        rcases minRatioScan_cases j skip rest (i+1) best with h | ⟨pos, hp, he, hs, he2⟩
        · left; rw [hstep, h]
        · right
          refine ⟨pos + 1, by simpa using hp, ?_, by omega, by simpa using he2⟩
          rw [hstep, he]
          simp [List.getD_cons_succ]
          omega
    · have hstep : minRatioScan j skip i (row :: rest) best =
          minRatioScan j skip (i+1) rest best := by
        rw [minRatioScan, if_neg h1]
      rcases minRatioScan_cases j skip rest (i+1) best with h | ⟨pos, hp, he, hs, he2⟩
      · left; rw [hstep, h]
      · right
        refine ⟨pos + 1, by simpa using hp, ?_, by omega, by simpa using he2⟩
        rw [hstep, he]
        simp [List.getD_cons_succ]
        omega

/-! ### Concrete states used by the theorems below -/

/-- The solver state right after setup for the example
`A=[[2,1],[1,2]]`, `b=[4,3]`, `c=[1,1]`. -/
def exampleState : SolverState :=
  (set_simplex_input initSolver [[2,1],[1,2]] [4,3] [1,1]).1

/-- Setup state for the degenerate input `A=[[1],[1]]`, `b=[0,1]`, `c=[1]`
(non-negative `b`, with a zero entry ahead of the first positive-ratio row). -/
def degenState : SolverState :=
  (set_simplex_input initSolver [[1],[1]] [0,1] [1]).1

/-- The pivot position the run selects from `degenState`. -/
def degenPivot : Nat × Int := find_pivot degenState

/-- The tableau state after the run's first (and only) pivot from `degenState`. -/
def degenState1 : SolverState := pivot degenState degenPivot.1 degenPivot.2.toNat

/-- Setup state for `A=[[-1]]`, `b=[1]`, `c=[1]`, on which no row ever
qualifies in the minimum-ratio test. -/
def unboundedState : SolverState :=
  (set_simplex_input initSolver [[-1]] [1] [1]).1

/-- A tableau whose bottom row is most negative in its final (b) column. -/
def bColMinState : SolverState :=
  { initSolver with tableau := [[1, 1, 5], [-1, 0, -2]] }

/-- The state left by calling `set_simplex_input` a second time on an
already-initialized solver (same 1×1 problem twice). -/
def reuseResult : SolverState × Bool :=
  set_simplex_input (set_simplex_input initSolver [[1]] [1] [1]).1 [[1]] [1] [1]

/-! ### C1 -/

attribute [local semireducible] Rat.add Rat.mul Rat.inv Rat.sub in
/-- C1: for `A=[[2,1],[1,2]]`, `b=[4,3]`, `c=[1,1]`, `run_simplex` (default
max mode, verbose off) terminates (within 10 loop iterations) and returns
exactly the mapping `{x0: 5/3, x1: 2/3, s0: 0, s1: 0, opt: 7/3}` in `ℚ`. -/
theorem run_example_solution :
    run_simplex [[2,1],[1,2]] [4,3] [1,1] false 10 =
      .sol [(SolKey.var (Label.x 0), 5/3), (SolKey.var (Label.x 1), 2/3),
            (SolKey.var (Label.s 0), 0), (SolKey.var (Label.s 1), 0),
            (SolKey.opt, 7/3)] := by
  decide

/-! ### C3 -/

attribute [local semireducible] Rat.add Rat.mul Rat.inv Rat.sub in
/-- C3 (failing input): for the input `A=[[1],[1]]`, `b=[0,1]`, `c=[1]`,
whose `b` is element-wise non-negative, the run does not terminate at the
initial tableau, selects a valid pivot, and after that very pivot the
first constraint row's b-column entry is `-1 < 0`; the run then returns a
solution in which the basic slack `s0` has the negative value `-1`.  This
refutes the claimed invariant on the code as written. -/
theorem degenerate_pivot_negative_b :
    (0:ℚ) ≤ 0 ∧ (0:ℚ) ≤ 1 ∧
    should_terminate degenState = false ∧
    0 ≤ degenPivot.2 ∧
    lastEntry (degenState1.tableau.getD 0 []) = -1 ∧
    run_simplex [[1],[1]] [0,1] [1] false 10 =
      .sol [(SolKey.var (Label.x 0), 1), (SolKey.var (Label.s 0), -1),
            (SolKey.var (Label.s 1), 0), (SolKey.opt, 1)] := by
  decide

/-! ### C7 -/

attribute [local semireducible] Rat.add Rat.mul Rat.inv Rat.sub in
/-- C7 (counterexample): on `A=[[-1]]`, `b=[1]`, `c=[1]` the departing-row
selection returns a negative index at the first iteration, yet the default
(verbose-off) run terminates the process with exit status 0 WITHOUT
printing the infeasible-pivot message (`msgShown = false`): the claim's
"reports an infeasible-pivot message to the user" does not hold of every
such run, because the message is guarded by `enable_msg`. -/
theorem infeasible_message_not_shown :
    (find_pivot unboundedState).2 < 0 ∧
    run_simplex [[-1]] [1] [1] false 10 = .exited 0 false := by
  decide

/-- C7 (amended): whenever an iteration of the run loop finds no valid
departing row (negative pivot-row index), the process immediately
terminates with exit status 0, printing the infeasible-pivot message
exactly when verbose mode is enabled, and never returns a solution
mapping to the caller. -/
theorem infeasible_pivot_exits (st : SolverState) (emsg : Bool) (fuel : Nat)
    (h1 : should_terminate st = false) (h2 : (find_pivot st).2 < 0) :
    runLoop emsg (fuel+1) st = .exited 0 emsg ∧
    ∀ s, runLoop emsg (fuel+1) st ≠ .sol s := by
  have h : runLoop emsg (fuel+1) st = .exited 0 emsg := by
    unfold runLoop
    simp [h1, h2]
  exact ⟨h, fun s => by simp [h]⟩

attribute [local semireducible] Rat.add Rat.mul Rat.inv Rat.sub in
/-- Witness for `infeasible_pivot_exits` at the concrete infeasible input
with verbose mode enabled. -/
theorem infeasible_pivot_exits_witness :
    runLoop true 10 unboundedState = .exited 0 true ∧
    ∀ s, runLoop true 10 unboundedState ≠ .sol s :=
  infeasible_pivot_exits unboundedState true 9 (by decide) (by decide)

/-! ### C8 -/

attribute [local semireducible] Rat.add Rat.mul Rat.inv Rat.sub in
/-- C8 (counterexample): calling `set_simplex_input` a second time on the
same instance (1×1 problem both times) raises an IndexError inside
`add_slack_variables` (success flag `false`): the stored `A` does have
`2m = 2` rows, but the entering/departing label sequences still hold only
the FIRST call's labels — they are not "the labels of both calls appended
end to end" — and `b`, `c` were replaced, not appended. -/
theorem reuse_setup_counterexample :
    reuseResult.2 = false ∧
    reuseResult.1.A.length = 2 ∧
    reuseResult.1.entering = [Label.x 0, Label.s 0, Label.b] ∧
    reuseResult.1.departing = [Label.s 0] := by
  decide

/-! ### C4 -/

/-- C4 (counterexample): on a tableau whose bottom row is `[-1, 0, -2]`,
the most negative bottom-row entry sits in the trailing b column (index
2 = row length - 1), and `get_entering_var` returns exactly that b-column
index — the scan does NOT exclude the trailing entry, contradicting the
claim that the returned index is never the b-column index. -/
theorem entering_var_returns_bcol :
    get_entering_var bColMinState = 2 ∧
    (bColMinState.tableau.getD (bColMinState.tableau.length - 1) []).length - 1 = 2 := by
  decide

/-! ### C2 -/

/-- Equation for `get_departing_var` when the first scan misses. -/
theorem get_departing_var_of_none (st : SolverState) (j : Nat)
    (hf : findFirstRatio j 0 st.tableau = none) :
    get_departing_var st j = -1 := by
  simp only [get_departing_var, hf]

/-- Equation for `get_departing_var` when the first scan hits. -/
theorem get_departing_var_of_some (st : SolverState) (j skip : Nat) (row : List ℚ)
    (hf : findFirstRatio j 0 st.tableau = some (skip, row))
    (hq : qualifies j row) :
    get_departing_var st j =
      ((minRatioScan j skip 0 st.tableau (skip, rowRatio j row)).1 : Int) := by
  simp only [get_departing_var, hf]
  exact if_pos hq.2

/-- C2: `get_departing_var` coincides, on every solver state and every
entering-column index, with `departingSpec`, the transcription of the
claimed rule (first non-zero positive-ratio row as candidate, replaced
only by later rows with strictly positive entry and strictly smaller
ratio, `-1` when the first scan finds nothing). -/
theorem departing_var_matches_spec (st : SolverState) (j : Nat) :
    get_departing_var st j = departingSpec st j := by
  have henum : st.tableau.enum.find? (fun p => decide (qualifies j p.2)) =
      findFirstRatio j 0 st.tableau := (findFirstRatio_eq_find? j st.tableau 0).symm
  cases hf : findFirstRatio j 0 st.tableau with
  | none =>
    rw [get_departing_var_of_none st j hf]
    simp only [departingSpec, henum, hf]
  | some fp =>
    obtain ⟨skip, row⟩ := fp
    obtain ⟨-, -, -, hq⟩ := findFirstRatio_some j st.tableau 0 skip row hf
    rw [get_departing_var_of_some st j skip row hf hq]
    simp only [departingSpec, henum, hf]
    rw [minRatioScan_eq_foldl j skip st.tableau 0 (skip, rowRatio j row)]
    rfl

/-! ### C9 -/

/-- C9: whenever the departing-row selection returns a non-negative index
for entering column `j`, the tableau entry at that row and column is
non-zero — so the division by the pivot element inside `pivot` along the
run's control flow is never a division by zero. -/
theorem departing_row_entry_nonzero (st : SolverState) (j : Nat)
    (h : 0 ≤ get_departing_var st j) :
    (st.tableau.getD (get_departing_var st j).toNat []).getD j 0 ≠ 0 := by
  cases hf : findFirstRatio j 0 st.tableau with
  | none =>
    rw [get_departing_var_of_none st j hf] at h
    exact absurd h (by norm_num)
  | some fp =>
    obtain ⟨skip, row⟩ := fp
    obtain ⟨-, hlen, hrow, hq⟩ := findFirstRatio_some j st.tableau 0 skip row hf
    simp only [Nat.sub_zero] at hlen hrow
    rw [get_departing_var_of_some st j skip row hf hq]
    rcases minRatioScan_cases j skip st.tableau 0 (skip, rowRatio j row) with hc | ⟨pos, hp, he, hs, he2⟩
    · rw [hc]
      simp only [Int.toNat_natCast]
      rw [hrow]
      exact hq.1
    · rw [he]
      simp only [Nat.zero_add, Int.toNat_natCast]
      exact he2.ne'

/-! ### C10 -/

/-- C10: although the departing-row scan ranges over every tableau row,
objective row included, if the objective row's entry in the entering
column is negative and its last entry is non-negative then the returned
index is never the objective row's index — in fact it is strictly below
`len(tableau) - 1`, so the departing-label write in `pivot` stays inside
the length-m departing sequence. -/
theorem departing_row_not_objective (st : SolverState) (j : Nat)
    (hneg : (st.tableau.getD (st.tableau.length - 1) []).getD j 0 < 0)
    (hlast : 0 ≤ lastEntry (st.tableau.getD (st.tableau.length - 1) [])) :
    get_departing_var st j ≠ ((st.tableau.length - 1 : Nat) : Int) ∧
    get_departing_var st j < ((st.tableau.length - 1 : Nat) : Int) := by
  have hnq : ¬ qualifies j (st.tableau.getD (st.tableau.length - 1) []) := by
    rintro ⟨-, hpos⟩
    have hle : rowRatio j (st.tableau.getD (st.tableau.length - 1) []) ≤ 0 :=
      div_nonpos_iff.mpr (Or.inl ⟨hlast, hneg.le⟩)
    exact absurd hpos (not_lt.mpr hle)
  cases hf : findFirstRatio j 0 st.tableau with
  | none =>
    rw [get_departing_var_of_none st j hf]
    have h0 : (0:Int) ≤ ((st.tableau.length - 1 : Nat) : Int) := Int.natCast_nonneg _
    constructor <;> omega
  | some fp =>
    obtain ⟨skip, row⟩ := fp
    obtain ⟨-, hlen, hrow, hq⟩ := findFirstRatio_some j st.tableau 0 skip row hf
    simp only [Nat.sub_zero] at hlen hrow
    have hskip : skip ≠ st.tableau.length - 1 := by
      intro hcontra
      rw [hcontra] at hrow
      rw [hrow] at hnq
      exact hnq hq
    rw [get_departing_var_of_some st j skip row hf hq]
    rcases minRatioScan_cases j skip st.tableau 0 (skip, rowRatio j row) with hc | ⟨pos, hp, he, hs, he2⟩
    · rw [hc]
      constructor <;> omega
    · rw [he]
      simp only [Nat.zero_add]
      have hpos_ne : pos ≠ st.tableau.length - 1 := by
        intro hcontra
        rw [hcontra] at he2
        exact absurd he2 (not_lt.mpr hneg.le)
      constructor <;> omega

attribute [local semireducible] Rat.add Rat.mul Rat.inv Rat.sub in
/-- Witness for `departing_row_entry_nonzero`: on the example setup state
the selection for column 0 returns row 0 and the pivot entry is 2 ≠ 0. -/
theorem departing_row_entry_nonzero_witness :
    (0:Int) ≤ get_departing_var exampleState 0 ∧
    (exampleState.tableau.getD (get_departing_var exampleState 0).toNat []).getD 0 0 ≠ 0 :=
  ⟨by decide, departing_row_entry_nonzero exampleState 0 (by decide)⟩

attribute [local semireducible] Rat.add Rat.mul Rat.inv Rat.sub in
/-- Witness for `departing_row_not_objective` on the example setup state
(objective-row entry -1 in column 0, objective-row last entry 0). -/
theorem departing_row_not_objective_witness :
    get_departing_var exampleState 0 ≠ ((exampleState.tableau.length - 1 : Nat) : Int) ∧
    get_departing_var exampleState 0 < ((exampleState.tableau.length - 1 : Nat) : Int) :=
  departing_row_not_objective exampleState 0 (by decide) (by decide)

/-! ### C4 (amended): the entering scan is a leftmost argmin over the
whole bottom row, trailing b entry included. -/

/-- Value characterization of `mostNegScan`: the result is the initial
best or a scanned position holding a value strictly below the initial
best value. -/
theorem mostNegScan_cases :
    ∀ (l : List ℚ) (i : Nat) (best : Nat × ℚ),
      mostNegScan i best l = best ∨
      ∃ k, k < l.length ∧ mostNegScan i best l = (i + k, l.getD k 0) ∧ l.getD k 0 < best.2
  | [], _, _ => Or.inl rfl
  | v :: rest, i, best => by
    by_cases h : v < best.2
    · have hstep : mostNegScan i best (v :: rest) = mostNegScan (i+1) (i, v) rest := by
        rw [mostNegScan, if_pos h]
      rcases mostNegScan_cases rest (i+1) (i, v) with hc | ⟨k, hk, he, hlt⟩
      · right
        exact ⟨0, by simp, by rw [hstep, hc]; simp, by simpa using h⟩
      · right
        refine ⟨k+1, by simp only [List.length_cons]; omega, ?_, ?_⟩
        · rw [hstep, he]
          simp [List.getD_cons_succ]
          omega
        · simpa [List.getD_cons_succ] using lt_trans hlt h
    · have hstep : mostNegScan i best (v :: rest) = mostNegScan (i+1) best rest := by
        rw [mostNegScan, if_neg h]
      rcases mostNegScan_cases rest (i+1) best with hc | ⟨k, hk, he, hlt⟩
      · left
        rw [hstep, hc]
      · right
        refine ⟨k+1, by simp only [List.length_cons]; omega, ?_, by simpa [List.getD_cons_succ] using hlt⟩
        rw [hstep, he]
        simp [List.getD_cons_succ]
        omega

/-- Minimality of `mostNegScan`: the resulting value is at most the
initial best value and at most every scanned value. -/
theorem mostNegScan_min :
    ∀ (l : List ℚ) (i : Nat) (best : Nat × ℚ),
      (mostNegScan i best l).2 ≤ best.2 ∧
      ∀ k, k < l.length → (mostNegScan i best l).2 ≤ l.getD k 0
  | [], _, _ => ⟨le_refl _, fun k hk => absurd hk (Nat.not_lt_zero k)⟩
  | v :: rest, i, best => by
    by_cases h : v < best.2
    · have hstep : mostNegScan i best (v :: rest) = mostNegScan (i+1) (i, v) rest := by
        rw [mostNegScan, if_pos h]
      obtain ⟨h1, h2⟩ := mostNegScan_min rest (i+1) (i, v)
      rw [hstep]
      refine ⟨le_trans h1 h.le, fun k hk => ?_⟩
      cases k with
      | zero => simpa using h1
      | succ t =>
        simp only [List.getD_cons_succ]
        exact h2 t (by simp only [List.length_cons] at hk; omega)
    · have hstep : mostNegScan i best (v :: rest) = mostNegScan (i+1) best rest := by
        rw [mostNegScan, if_neg h]
      obtain ⟨h1, h2⟩ := mostNegScan_min rest (i+1) best
      rw [hstep]
      refine ⟨h1, fun k hk => ?_⟩
      cases k with
      | zero => simpa using le_trans h1 (not_lt.mp h)
      | succ t =>
        simp only [List.getD_cons_succ]
        exact h2 t (by simp only [List.length_cons] at hk; omega)

/-- Leftmost tie-break of `mostNegScan`: every scanned position strictly
before the resulting index holds a strictly larger value (the scan only
replaces on strict decrease). -/
theorem mostNegScan_leftmost :
    ∀ (l : List ℚ) (i : Nat) (best : Nat × ℚ), best.1 ≤ i →
      ∀ k, k < l.length → i + k < (mostNegScan i best l).1 →
        (mostNegScan i best l).2 < l.getD k 0
  | [], _, _, _ => fun k hk => absurd hk (Nat.not_lt_zero k)
  | v :: rest, i, best, hb => by
    intro k hk hlt
    by_cases h : v < best.2
    · have hstep : mostNegScan i best (v :: rest) = mostNegScan (i+1) (i, v) rest := by
        rw [mostNegScan, if_pos h]
      rw [hstep] at hlt ⊢
      cases k with
      | zero =>
        simp only [List.getD_cons_zero]
        rcases mostNegScan_cases rest (i+1) (i, v) with hc | ⟨t, ht, he, hv⟩
        · rw [hc] at hlt
          exact absurd hlt (by omega)
        · rw [he]
          exact hv
      | succ t =>
        simp only [List.getD_cons_succ]
        refine mostNegScan_leftmost rest (i+1) (i, v) (by omega) t ?_ ?_
        · simp only [List.length_cons] at hk; omega
        · omega
    · have hstep : mostNegScan i best (v :: rest) = mostNegScan (i+1) best rest := by
        rw [mostNegScan, if_neg h]
      rw [hstep] at hlt ⊢
      cases k with
      | zero =>
        simp only [List.getD_cons_zero]
        rcases mostNegScan_cases rest (i+1) best with hc | ⟨t, ht, he, hv⟩
        · rw [hc] at hlt
          exact absurd hlt (by omega)
        · rw [he]
          exact lt_of_lt_of_le hv (not_lt.mp h)
      | succ t =>
        simp only [List.getD_cons_succ]
        refine mostNegScan_leftmost rest (i+1) best (by omega) t ?_ ?_
        · simp only [List.length_cons] at hk; omega
        · omega

/-- C4 (amended): `get_entering_var` returns the left-most index
attaining the minimum value of the WHOLE objective row — the trailing
b-column entry included, so the b-column index can be returned (see
`entering_var_returns_bcol`): the returned index is in range, its value
is less than or equal to every bottom-row entry, and every earlier entry
is strictly larger. -/
theorem entering_var_leftmost_argmin (st : SolverState)
    (hne : st.tableau.getD (st.tableau.length - 1) [] ≠ []) :
    get_entering_var st < (st.tableau.getD (st.tableau.length - 1) []).length ∧
    (∀ k, k < (st.tableau.getD (st.tableau.length - 1) []).length →
      (st.tableau.getD (st.tableau.length - 1) []).getD (get_entering_var st) 0 ≤
        (st.tableau.getD (st.tableau.length - 1) []).getD k 0) ∧
    (∀ k, k < get_entering_var st →
      (st.tableau.getD (st.tableau.length - 1) []).getD (get_entering_var st) 0 <
        (st.tableau.getD (st.tableau.length - 1) []).getD k 0) := by
  simp only [get_entering_var]
  generalize hB : st.tableau.getD (st.tableau.length - 1) [] = bottom at hne ⊢
  have hlen0 : 0 < bottom.length := List.length_pos.mpr hne
  obtain ⟨hv, hlt⟩ : (mostNegScan 0 (0, bottom.getD 0 0) bottom).2 =
      bottom.getD (mostNegScan 0 (0, bottom.getD 0 0) bottom).1 0 ∧
      (mostNegScan 0 (0, bottom.getD 0 0) bottom).1 < bottom.length := by
    rcases mostNegScan_cases bottom 0 (0, bottom.getD 0 0) with hc | ⟨k, hk, he, -⟩
    · rw [hc]
      exact ⟨rfl, hlen0⟩
    · rw [he]
      exact ⟨by simp, by simpa using hk⟩
  obtain ⟨-, hmin⟩ := mostNegScan_min bottom 0 (0, bottom.getD 0 0)
  refine ⟨hlt, fun k hk => ?_, fun k hk => ?_⟩
  · rw [← hv]
    exact hmin k hk
  · rw [← hv]
    exact mostNegScan_leftmost bottom 0 (0, bottom.getD 0 0) (le_refl 0) k
      (lt_trans hk hlt) (by simpa using hk)

attribute [local semireducible] Rat.add Rat.mul Rat.inv Rat.sub in
/-- Witness for `entering_var_leftmost_argmin` on the example setup state. -/
theorem entering_var_leftmost_argmin_witness :
    get_entering_var exampleState <
      (exampleState.tableau.getD (exampleState.tableau.length - 1) []).length ∧
    (∀ k, k < (exampleState.tableau.getD (exampleState.tableau.length - 1) []).length →
      (exampleState.tableau.getD (exampleState.tableau.length - 1) []).getD
          (get_entering_var exampleState) 0 ≤
        (exampleState.tableau.getD (exampleState.tableau.length - 1) []).getD k 0) ∧
    (∀ k, k < get_entering_var exampleState →
      (exampleState.tableau.getD (exampleState.tableau.length - 1) []).getD
          (get_entering_var exampleState) 0 <
        (exampleState.tableau.getD (exampleState.tableau.length - 1) []).getD k 0) :=
  entering_var_leftmost_argmin exampleState (by decide)

/-! ### C5 -/

/-- C5: for a pivot position `(column j, row i)` with a non-zero pivot
element, on a tableau with uniform row length `L` and `j < L`: the pivot
row is divided entry-wise by the old pivot element; every other row
becomes its old value minus its old column-`j` entry times the normalized
pivot row; column `j` becomes a unit vector (1 at row `i`, 0 elsewhere);
the departing label at `i` becomes the entering label at `j` and all
other labels are unchanged. -/
theorem pivot_spec (st : SolverState) (j i L : Nat)
    (hi : i < st.tableau.length)
    (hL : ∀ row ∈ st.tableau, row.length = L)
    (hj : j < L)
    (hpv : (st.tableau.getD i []).getD j 0 ≠ 0)
    (hid : i < st.departing.length) :
    (pivot st j i).tableau.length = st.tableau.length ∧
    (pivot st j i).tableau.getD i [] =
      (st.tableau.getD i []).map (fun e => e / (st.tableau.getD i []).getD j 0) ∧
    (∀ k, k < st.tableau.length → k ≠ i →
      (pivot st j i).tableau.getD k [] =
        List.zipWith (fun a sc => a - sc) (st.tableau.getD k [])
          (((st.tableau.getD i []).map (fun e => e / (st.tableau.getD i []).getD j 0)).map
            (fun y => y * (st.tableau.getD k []).getD j 0))) ∧
    ((pivot st j i).tableau.getD i []).getD j 0 = 1 ∧
    (∀ k, k < st.tableau.length → k ≠ i →
      ((pivot st j i).tableau.getD k []).getD j 0 = 0) ∧
    (pivot st j i).entering = st.entering ∧
    (pivot st j i).departing.getD i Label.b = st.entering.getD j Label.b ∧
    (∀ k, k ≠ i → (pivot st j i).departing.getD k Label.b = st.departing.getD k Label.b) := by
  have hmem : ∀ k, k < st.tableau.length → (st.tableau.getD k []).length = L := by
    intro k hk
    rw [List.getD_eq_getElem _ _ hk]
    exact hL _ (List.getElem_mem hk)
  have hpvlen : (st.tableau.getD i []).length = L := hmem i hi
  have hji : j < (st.tableau.getD i []).length := hpvlen ▸ hj
  have hpvelem : (st.tableau.getD i [])[j] = (st.tableau.getD i []).getD j 0 :=
    (List.getD_eq_getElem _ _ hji).symm
  -- the three intermediate stages of `pivot`
  have hpiv : pivot st j i =
      { st with
        tableau := (st.tableau.set i
            ((st.tableau.getD i []).map (fun e => e / (st.tableau.getD i []).getD j 0))).mapIdx
          (fun k row =>
            if k = i then row
            else List.zipWith (fun a sc => a - sc) row
              (((st.tableau.getD i []).map
                  (fun e => e / (st.tableau.getD i []).getD j 0)).map
                (fun y => y * row.getD j 0))),
        departing := st.departing.set i (st.entering.getD j Label.b) } := rfl
  have hlen1 : ((st.tableau.set i
      ((st.tableau.getD i []).map (fun e => e / (st.tableau.getD i []).getD j 0))).mapIdx
        (fun k row =>
          if k = i then row
          else List.zipWith (fun a sc => a - sc) row
            (((st.tableau.getD i []).map
                (fun e => e / (st.tableau.getD i []).getD j 0)).map
              (fun y => y * row.getD j 0)))).length = st.tableau.length := by
    rw [List.length_mapIdx, List.length_set]
  have hi1 : i < ((st.tableau.set i
      ((st.tableau.getD i []).map (fun e => e / (st.tableau.getD i []).getD j 0))).mapIdx
        (fun k row =>
          if k = i then row
          else List.zipWith (fun a sc => a - sc) row
            (((st.tableau.getD i []).map
                (fun e => e / (st.tableau.getD i []).getD j 0)).map
              (fun y => y * row.getD j 0)))).length := hlen1 ▸ hi
  have hrowi : (pivot st j i).tableau.getD i [] =
      (st.tableau.getD i []).map (fun e => e / (st.tableau.getD i []).getD j 0) := by
    rw [hpiv]
    rw [List.getD_eq_getElem _ _ hi1, List.getElem_mapIdx]
    rw [List.getElem_set_self (by rw [List.length_set]; exact hi)]
    rw [if_pos rfl]
  have hrowk : ∀ k, k < st.tableau.length → k ≠ i →
      (pivot st j i).tableau.getD k [] =
        List.zipWith (fun a sc => a - sc) (st.tableau.getD k [])
          (((st.tableau.getD i []).map (fun e => e / (st.tableau.getD i []).getD j 0)).map
            (fun y => y * (st.tableau.getD k []).getD j 0)) := by
    intro k hk hne
    have hk1 : k < ((st.tableau.set i
        ((st.tableau.getD i []).map (fun e => e / (st.tableau.getD i []).getD j 0))).mapIdx
          (fun k row =>
            if k = i then row
            else List.zipWith (fun a sc => a - sc) row
              (((st.tableau.getD i []).map
                  (fun e => e / (st.tableau.getD i []).getD j 0)).map
                (fun y => y * row.getD j 0)))).length := hlen1 ▸ hk
    rw [hpiv]
    rw [List.getD_eq_getElem?_getD, List.getElem?_mapIdx,
      List.getElem?_set_ne (Ne.symm hne), List.getElem?_eq_getElem hk,
      Option.map_some', Option.getD_some, if_neg hne,
      ← List.getD_eq_getElem st.tableau [] hk]
  have hunit : ((pivot st j i).tableau.getD i []).getD j 0 = 1 := by
    rw [hrowi]
    have hjm : j < ((st.tableau.getD i []).map
        (fun e => e / (st.tableau.getD i []).getD j 0)).length := by
      rw [List.length_map]; exact hji
    rw [List.getD_eq_getElem _ _ hjm, List.getElem_map]
    rw [hpvelem]
    exact div_self hpv
  have hzero : ∀ k, k < st.tableau.length → k ≠ i →
      ((pivot st j i).tableau.getD k []).getD j 0 = 0 := by
    intro k hk hne
    rw [hrowk k hk hne]
    have hjk : j < (st.tableau.getD k []).length := (hmem k hk) ▸ hj
    have hjz : j < (List.zipWith (fun a sc => a - sc) (st.tableau.getD k [])
        (((st.tableau.getD i []).map (fun e => e / (st.tableau.getD i []).getD j 0)).map
          (fun y => y * (st.tableau.getD k []).getD j 0))).length := by
      rw [List.length_zipWith, List.length_map, List.length_map, hpvlen, hmem k hk]
      exact lt_min hj hj
    rw [List.getD_eq_getElem _ _ hjz, List.getElem_zipWith, List.getElem_map, List.getElem_map]
    rw [hpvelem]
    rw [div_self hpv]
    simp only [List.getD_eq_getElem _ _ hjk, one_mul, sub_self]
  refine ⟨by rw [hpiv]; exact hlen1, hrowi, hrowk, hunit, hzero, by rw [hpiv], ?_, ?_⟩
  · rw [hpiv]
    have hid2 : i < (st.departing.set i (st.entering.getD j Label.b)).length := by
      rw [List.length_set]; exact hid
    rw [List.getD_eq_getElem _ _ hid2, List.getElem_set_self]
  · intro k hne
    rw [hpiv]
    have h1 : (st.departing.set i (st.entering.getD j Label.b))[k]? = st.departing[k]? :=
      List.getElem?_set_ne (Ne.symm hne)
    rw [List.getD_eq_getElem?_getD, h1, ← List.getD_eq_getElem?_getD]

attribute [local semireducible] Rat.add Rat.mul Rat.inv Rat.sub in
/-- Witness for `pivot_spec` at the example setup state, pivoting on
column 0, row 0 (pivot element 2): the pivot entry becomes 1 and the
departing label at row 0 becomes the entering label of column 0. -/
theorem pivot_spec_witness :
    ((pivot exampleState 0 0).tableau.getD 0 []).getD 0 0 = 1 ∧
    (pivot exampleState 0 0).departing.getD 0 Label.b =
      exampleState.entering.getD 0 Label.b :=
  ⟨(pivot_spec exampleState 0 0 5 (by decide) (by decide) (by decide) (by decide)
      (by decide)).2.2.2.1,
   (pivot_spec exampleState 0 0 5 (by decide) (by decide) (by decide) (by decide)
      (by decide)).2.2.2.2.2.2.1⟩

/-! ### C6 -/

/-- `get?` of an in-range index, phrased through `getD`. -/
theorem get?_of_lt {α : Type} (l : List α) (k : Nat) (d : α) (hk : k < l.length) :
    l.get? k = some (l.getD k d) := by
  rw [List.get?_eq_getElem?, List.getElem?_eq_getElem hk, List.getD_eq_getElem _ _ hk]

/-- When `b` and the slack block cover every processed row index, the
slack loop succeeds and appends to row `k` the `(i+k)`-th slack row and
`b[i+k]`. -/
theorem addSlackAux_spec (slack : List (List ℚ)) (bv : List ℚ) :
    ∀ (l : List (List ℚ)) (i : Nat),
      i + l.length ≤ bv.length → i + l.length ≤ slack.length →
      (addSlackAux slack bv i l).2 = true ∧
      (addSlackAux slack bv i l).1.length = l.length ∧
      ∀ k, k < l.length →
        (addSlackAux slack bv i l).1.getD k [] =
          l.getD k [] ++ slack.getD (i+k) [] ++ [bv.getD (i+k) 0]
  | [], i, _, _ => ⟨rfl, rfl, fun k hk => absurd hk (Nat.not_lt_zero k)⟩
  | row :: rest, i, hb, hs => by
    have hib : i < bv.length := by simp only [List.length_cons] at hb; omega
    have his : i < slack.length := by simp only [List.length_cons] at hs; omega
    have h1 : slack.get? i = some (slack.getD i []) := get?_of_lt slack i [] his
    have h2 : bv.get? i = some (bv.getD i 0) := get?_of_lt bv i 0 hib
    obtain ⟨ht, hlen, hrows⟩ := addSlackAux_spec slack bv rest (i+1)
      (by simp only [List.length_cons] at hb; omega)
      (by simp only [List.length_cons] at hs; omega)
    have hstep : addSlackAux slack bv i (row :: rest) =
        ((row ++ slack.getD i [] ++ [bv.getD i 0]) :: (addSlackAux slack bv (i+1) rest).1,
         (addSlackAux slack bv (i+1) rest).2) := by
      simp only [addSlackAux, h1, h2]
    refine ⟨by rw [hstep]; exact ht, by rw [hstep]; simp [hlen], ?_⟩
    intro k hk
    cases k with
    | zero =>
      rw [hstep]
      simp
    | succ t =>
      rw [hstep]
      simp only [List.getD_cons_succ]
      have hrec := hrows t (by simp only [List.length_cons] at hk; omega)
      have harith : i + 1 + t = i + (t + 1) := by omega
      rw [harith] at hrec
      exact hrec

/-- When some processed row index falls outside `b`, the slack loop
raises (flag `false`), as long as the slack block itself covers. -/
theorem addSlackAux_fails (slack : List (List ℚ)) (bv : List ℚ) :
    ∀ (l : List (List ℚ)) (i : Nat), l ≠ [] →
      bv.length < i + l.length → i + l.length ≤ slack.length →
      (addSlackAux slack bv i l).2 = false
  | [], _, h, _, _ => absurd rfl h
  | row :: rest, i, _, hb, hs => by
    have his : i < slack.length := by simp only [List.length_cons] at hs; omega
    have h1 : slack.get? i = some (slack.getD i []) := get?_of_lt slack i [] his
    cases hbv : bv.get? i with
    | none => simp only [addSlackAux, h1, hbv]
    | some bi =>
      have hib : i < bv.length := by
        by_contra hc
        rw [List.get?_eq_none.mpr (by omega)] at hbv
        exact Option.noConfusion hbv
      have hrest : 0 < rest.length := by
        simp only [List.length_cons] at hb
        omega
      simp only [addSlackAux, h1, hbv]
      exact addSlackAux_fails slack bv rest (i+1) (List.length_pos.mp hrest)
        (by simp only [List.length_cons] at hb; omega)
        (by simp only [List.length_cons] at hs; omega)

/-- `create_tableau` and `add_slack_variables` only touch the tableau. -/
theorem create_tableau_fields (st : SolverState) :
    (create_tableau st).1.A = st.A ∧ (create_tableau st).1.b = st.b ∧
    (create_tableau st).1.c = st.c ∧ (create_tableau st).1.entering = st.entering ∧
    (create_tableau st).1.departing = st.departing := by
  simp only [create_tableau, add_slack_variables]
  split <;> exact ⟨rfl, rfl, rfl, rfl, rfl⟩

/-- `set_simplex_input` appends the given rows to the stored `A` and
replaces `b` and `c`, whatever else happens. -/
theorem set_simplex_input_fields (st : SolverState) (A : List (List ℚ)) (b c : List ℚ) :
    (set_simplex_input st A b c).1.A = st.A ++ A ∧
    (set_simplex_input st A b c).1.b = b ∧
    (set_simplex_input st A b c).1.c = c := by
  obtain ⟨h1, h2, h3, -, -⟩ := create_tableau_fields { st with A := st.A ++ A, b := b, c := c }
  refine ⟨?_, ?_, ?_⟩ <;> (unfold set_simplex_input; dsimp only; split) <;> simp_all

/-- The label loop produces `x0..x(n-1), s0..s(m-1), b` as entering
labels and `s0..s(m-1)` as departing labels. -/
theorem labelRange_spec (n m : Nat) :
    labelRange n (n + m + 1) =
      ((List.range n).map Label.x ++ ((List.range m).map Label.s ++ [Label.b]),
       (List.range m).map Label.s) := by
  have hsplit : List.range (n + m + 1) = List.range n ++ (List.range (m+1)).map (fun t => n + t) := by
    have h : n + m + 1 = n + (m + 1) := by omega
    rw [h, List.range_add]
  unfold labelRange
  rw [hsplit]
  simp only [Prod.mk.injEq]
  constructor
  · rw [List.map_append, List.map_map]
    have h1 : (List.range n).map (fun i =>
        if i < n then Label.x i
        else if i < n + m + 1 - 1 then Label.s (i - n) else Label.b) =
        (List.range n).map Label.x := by
      refine List.map_congr_left ?_
      intro i hi
      simp [List.mem_range.mp hi]
    have h2 : (List.range (m+1)).map ((fun i =>
        if i < n then Label.x i
        else if i < n + m + 1 - 1 then Label.s (i - n) else Label.b) ∘ (fun t => n + t)) =
        (List.range (m+1)).map (fun t => if t < m then Label.s t else Label.b) := by
      refine List.map_congr_left ?_
      intro t ht
      simp only [Function.comp]
      rw [if_neg (by omega)]
      by_cases htm : t < m
      · rw [if_pos (by omega), if_pos htm]
        congr 1
        omega
      · rw [if_neg (by omega), if_neg htm]
    rw [h1, h2, List.range_succ, List.map_append]
    have h4 : (List.range m).map (fun t => if t < m then Label.s t else Label.b) =
        (List.range m).map Label.s :=
      List.map_congr_left (fun t ht => if_pos (List.mem_range.mp ht))
    have h5 : ([m] : List Nat).map (fun t => if t < m then Label.s t else Label.b) =
        [Label.b] := by
      simp
    rw [h4, h5]
  · rw [List.filterMap_append]
    have h1 : (List.range n).filterMap (fun i =>
        if i < n then none
        else if i < n + m + 1 - 1 then some (Label.s (i - n)) else none) = [] := by
      refine List.filterMap_eq_nil_iff.mpr ?_
      intro i hi
      simp [List.mem_range.mp hi]
    have h2 : ((List.range (m+1)).map (fun t => n + t)).filterMap (fun i =>
        if i < n then none
        else if i < n + m + 1 - 1 then some (Label.s (i - n)) else none) =
        (List.range (m+1)).filterMap (fun t => if t < m then some (Label.s t) else none) := by
      rw [List.filterMap_map]
      refine List.filterMap_congr ?_
      intro t ht
      simp only [Function.comp]
      rw [if_neg (by omega)]
      by_cases htm : t < m
      · rw [if_pos (by omega), if_pos htm]
        congr 2
        omega
      · rw [if_neg (by omega), if_neg htm]
    rw [h1, h2, List.range_succ, List.filterMap_append]
    have h3 : (List.range m).filterMap (fun t => if t < m then some (Label.s t) else none) =
        (List.range m).map Label.s := by
      have hc : (List.range m).filterMap (fun t => if t < m then some (Label.s t) else none) =
          (List.range m).filterMap (some ∘ Label.s) := by
        refine List.filterMap_congr ?_
        intro t ht
        simp [List.mem_range.mp ht, Function.comp]
      rw [hc, List.filterMap_eq_map]
    rw [h3]
    simp

/-- `headD` is `getD 0`. -/
theorem headD_eq_getD_zero {α : Type} (l : List α) (d : α) : l.headD d = l.getD 0 d := by
  cases l <;> rfl

/-- Unfolding equation of `add_slack_variables`. -/
theorem add_slack_variables_eq (st : SolverState) :
    add_slack_variables st =
      ({ st with tableau :=
          (addSlackAux (generate_identity st.tableau.length) st.b 0 st.tableau).1 },
       (addSlackAux (generate_identity st.tableau.length) st.b 0 st.tableau).2) := rfl

/-- Unfolding equation of `create_tableau` on a fresh-setup state, on the
success path of the slack loop. -/
theorem create_tableau_fresh_eq (A : List (List ℚ)) (b c : List ℚ)
    (h : (addSlackAux (generate_identity A.length) b 0 A).2 = true) :
    create_tableau ⟨A, b, c, [], [], []⟩ =
      (⟨A, b, c,
        (addSlackAux (generate_identity A.length) b 0 A).1 ++
          [c.map (fun v => -v) ++ List.replicate (b.length + 1) (0:ℚ)], [], []⟩, true) := by
  unfold create_tableau add_slack_variables
  dsimp only
  rw [if_pos h]

/-- Unfolding equation of `set_simplex_input` on a fresh solver, on the
success path. -/
theorem set_simplex_input_fresh_eq (A : List (List ℚ)) (b c : List ℚ) (a0 : List ℚ)
    (h2 : (create_tableau ⟨A, b, c, [], [], []⟩).2 = true)
    (hh : (create_tableau ⟨A, b, c, [], [], []⟩).1.A.head? = some a0) :
    set_simplex_input initSolver A b c =
      (⟨(create_tableau ⟨A, b, c, [], [], []⟩).1.A,
        (create_tableau ⟨A, b, c, [], [], []⟩).1.b,
        (create_tableau ⟨A, b, c, [], [], []⟩).1.c,
        (create_tableau ⟨A, b, c, [], [], []⟩).1.tableau,
        (create_tableau ⟨A, b, c, [], [], []⟩).1.entering ++
          (labelRange a0.length
            ((create_tableau ⟨A, b, c, [], [], []⟩).1.tableau.headD []).length).1,
        (create_tableau ⟨A, b, c, [], [], []⟩).1.departing ++
          (labelRange a0.length
            ((create_tableau ⟨A, b, c, [], [], []⟩).1.tableau.headD []).length).2⟩,
       true) := by
  have hAA : ({ initSolver with A := initSolver.A ++ A, b := b, c := c } : SolverState) =
      ⟨A, b, c, [], [], []⟩ := by
    simp [initSolver]
  unfold set_simplex_input
  dsimp only
  rw [hAA, h2, hh]

/-- Full description of a successful fresh setup: flag, tableau rows,
and label sequences. -/
theorem setup_fresh (A : List (List ℚ)) (b c : List ℚ) (m n : Nat)
    (hA : A.length = m) (hm : 0 < m) (hrow : ∀ row ∈ A, row.length = n)
    (hb : b.length = m) :
    (set_simplex_input initSolver A b c).2 = true ∧
    (set_simplex_input initSolver A b c).1.tableau.length = m + 1 ∧
    (∀ i, i < m → (set_simplex_input initSolver A b c).1.tableau.getD i [] =
      A.getD i [] ++ (generate_identity m).getD i [] ++ [b.getD i 0]) ∧
    (set_simplex_input initSolver A b c).1.tableau.getD m [] =
      c.map (fun v => -v) ++ List.replicate (m+1) (0:ℚ) ∧
    (set_simplex_input initSolver A b c).1.entering =
      (List.range n).map Label.x ++ ((List.range m).map Label.s ++ [Label.b]) ∧
    (set_simplex_input initSolver A b c).1.departing = (List.range m).map Label.s := by
  -- slack-loop facts
  have hgidlen : (generate_identity m).length = m := by
    simp [generate_identity]
  obtain ⟨hflag, hlen, hrows⟩ := addSlackAux_spec (generate_identity m) b A 0
    (by rw [hA, hb]; omega) (by rw [hA, hgidlen]; omega)
  have hAm : generate_identity A.length = generate_identity m := by rw [hA]
  -- create_tableau on the fresh state
  have hct : create_tableau ⟨A, b, c, [], [], []⟩ =
      (⟨A, b, c,
        (addSlackAux (generate_identity m) b 0 A).1 ++
          [c.map (fun v => -v) ++ List.replicate (m + 1) (0:ℚ)], [], []⟩, true) := by
    rw [create_tableau_fresh_eq A b c (by rw [hAm]; exact hflag)]
    rw [hAm, hb]
  -- the head of A
  obtain ⟨a0, A1, rfl⟩ : ∃ a0 A1, A = a0 :: A1 := by
    cases A with
    | nil => exact absurd hA (by simp; omega)
    | cons a0 A1 => exact ⟨a0, A1, rfl⟩
  have ha0n : a0.length = n := hrow a0 (by simp)
  -- first tableau row and column count
  have hmlen : (a0 :: A1).length = m := hA
  have h0m : 0 < (addSlackAux (generate_identity m) b 0 (a0 :: A1)).1.length := by
    rw [hlen, hmlen]; exact hm
  have hrow0 : (addSlackAux (generate_identity m) b 0 (a0 :: A1)).1.getD 0 [] =
      a0 ++ (generate_identity m).getD 0 [] ++ [b.getD 0 0] := by
    have h := hrows 0 (by rw [hmlen]; exact hm)
    simpa using h
  have hgid0 : ((generate_identity m).getD 0 []).length = m := by
    have h0g : 0 < (generate_identity m).length := by rw [hgidlen]; exact hm
    rw [List.getD_eq_getElem _ _ h0g]
    simp [generate_identity]
  have hnCols : ((create_tableau ⟨a0 :: A1, b, c, [], [], []⟩).1.tableau.headD []).length =
      n + m + 1 := by
    rw [hct]
    dsimp only
    rw [headD_eq_getD_zero, List.getD_append _ _ _ _ h0m, hrow0]
    simp only [List.length_append, List.length_singleton, ha0n, hgid0]
  -- assemble
  have hmain := set_simplex_input_fresh_eq (a0 :: A1) b c a0
    (by rw [hct]) (by rw [hct]; rfl)
  rw [hmain]
  refine ⟨rfl, ?_, ?_, ?_, ?_, ?_⟩
  · dsimp only
    rw [hct]
    dsimp only
    rw [List.length_append, hlen, hmlen]
    simp
  · intro i hi
    dsimp only
    rw [hct]
    dsimp only
    rw [List.getD_append _ _ _ _ (by rw [hlen, hmlen]; exact hi)]
    simpa using hrows i (by rw [hmlen]; exact hi)
  · dsimp only
    rw [hct]
    dsimp only
    rw [List.getD_append_right _ _ _ _ (by rw [hlen, hmlen])]
    rw [hlen, hmlen]
    simp
  · dsimp only
    rw [hnCols, ha0n, labelRange_spec n m, hct]
    simp
  · dsimp only
    rw [hnCols, ha0n, labelRange_spec n m, hct]
    simp
/-- C6: setup on a fresh solver converts the m×n problem into an
(m+1)-row tableau — row i (i < m) is row i of A, then row i of the m×m
identity, then b[i]; row m is the negation of c followed by m+1 zeros —
with entering labels `x0..x(n-1), s0..s(m-1), b` and departing labels
`s0..s(m-1)` (entries are exact rationals by the `ℚ` type).  `0 < m` is
required: with no constraint rows the label loop raises IndexError. -/
theorem setup_builds_tableau (A : List (List ℚ)) (b c : List ℚ) (m n : Nat)
    (hA : A.length = m) (hm : 0 < m) (hrow : ∀ row ∈ A, row.length = n)
    (hb : b.length = m) (hc : c.length = n) :
    (set_simplex_input initSolver A b c).2 = true ∧
    (set_simplex_input initSolver A b c).1.tableau.length = m + 1 ∧
    (∀ i, i < m → (set_simplex_input initSolver A b c).1.tableau.getD i [] =
      A.getD i [] ++ (generate_identity m).getD i [] ++ [b.getD i 0]) ∧
    (set_simplex_input initSolver A b c).1.tableau.getD m [] =
      c.map (fun v => -v) ++ List.replicate (m+1) (0:ℚ) ∧
    (set_simplex_input initSolver A b c).1.entering =
      (List.range n).map Label.x ++ ((List.range m).map Label.s ++ [Label.b]) ∧
    (set_simplex_input initSolver A b c).1.departing = (List.range m).map Label.s :=
  setup_fresh A b c m n hA hm hrow hb

attribute [local semireducible] Rat.add Rat.mul Rat.inv Rat.sub in
/-- Witness for `setup_builds_tableau` at the 2×2 example problem. -/
theorem setup_builds_tableau_witness :
    (set_simplex_input initSolver [[2,1],[1,2]] [4,3] [1,1]).2 = true ∧
    (set_simplex_input initSolver [[2,1],[1,2]] [4,3] [1,1]).1.tableau.getD 2 [] =
      ([1,1] : List ℚ).map (fun v => -v) ++ List.replicate 3 (0:ℚ) ∧
    (set_simplex_input initSolver [[2,1],[1,2]] [4,3] [1,1]).1.entering =
      (List.range 2).map Label.x ++ ((List.range 2).map Label.s ++ [Label.b]) :=
  ⟨(setup_builds_tableau [[2,1],[1,2]] [4,3] [1,1] 2 2 (by decide) (by decide)
      (by decide) (by decide) (by decide)).1,
   (setup_builds_tableau [[2,1],[1,2]] [4,3] [1,1] 2 2 (by decide) (by decide)
      (by decide) (by decide) (by decide)).2.2.2.1,
   (setup_builds_tableau [[2,1],[1,2]] [4,3] [1,1] 2 2 (by decide) (by decide)
      (by decide) (by decide) (by decide)).2.2.2.2.1⟩

/-! ### C8 (amended) -/

/-- The length of the generated identity. -/
theorem generate_identity_length (k : Nat) : (generate_identity k).length = k := by
  simp [generate_identity]

/-- `add_slack_variables` only rewrites the tableau field. -/
theorem add_slack_variables_fields (st : SolverState) :
    (add_slack_variables st).1.A = st.A ∧ (add_slack_variables st).1.b = st.b ∧
    (add_slack_variables st).1.c = st.c ∧
    (add_slack_variables st).1.entering = st.entering ∧
    (add_slack_variables st).1.departing = st.departing :=
  ⟨rfl, rfl, rfl, rfl, rfl⟩

/-- Unfolding equation of `create_tableau` on the failure path. -/
theorem create_tableau_of_fail (st : SolverState)
    (h : (add_slack_variables { st with tableau := st.A }).2 = false) :
    create_tableau st = ((add_slack_variables { st with tableau := st.A }).1, false) := by
  unfold create_tableau
  dsimp only
  simp only [h]
  rfl

/-- Unfolding equation of `set_simplex_input` on the failure path of
`create_tableau`. -/
theorem set_simplex_input_of_fail (st : SolverState) (A : List (List ℚ)) (b c : List ℚ)
    (h2 : (create_tableau { st with A := st.A ++ A, b := b, c := c }).2 = false) :
    set_simplex_input st A b c =
      ((create_tableau { st with A := st.A ++ A, b := b, c := c }).1, false) := by
  unfold set_simplex_input
  dsimp only
  rw [h2]

/-- C8 (amended): invoking setup again on an already-initialized solver
with a second m×n problem (m ≥ 1) appends the new rows to the stored `A`
(2m rows afterwards) but REPLACES `b` and `c`, and the call fails (an
IndexError inside `add_slack_variables`, because the 2m-row tableau is
paired with the length-m `b`) before any label is appended: the
entering/departing sequences still hold exactly the first call's labels. -/
theorem setup_reuse_appends_and_fails (A A2 : List (List ℚ)) (b c b2 c2 : List ℚ)
    (m : Nat) (hm : 0 < m) (hA : A.length = m) (hA2 : A2.length = m)
    (hb2 : b2.length = m) :
    (set_simplex_input (set_simplex_input initSolver A b c).1 A2 b2 c2).2 = false ∧
    (set_simplex_input (set_simplex_input initSolver A b c).1 A2 b2 c2).1.A.length = 2 * m ∧
    (set_simplex_input (set_simplex_input initSolver A b c).1 A2 b2 c2).1.entering =
      (set_simplex_input initSolver A b c).1.entering ∧
    (set_simplex_input (set_simplex_input initSolver A b c).1 A2 b2 c2).1.departing =
      (set_simplex_input initSolver A b c).1.departing ∧
    (set_simplex_input (set_simplex_input initSolver A b c).1 A2 b2 c2).1.b = b2 ∧
    (set_simplex_input (set_simplex_input initSolver A b c).1 A2 b2 c2).1.c = c2 := by
  have hst1A : (set_simplex_input initSolver A b c).1.A = A := by
    rw [(set_simplex_input_fields initSolver A b c).1]
    simp [initSolver]
  -- the state handed to the failing create_tableau
  have hlen2 : (((set_simplex_input initSolver A b c).1.A ++ A2) : List (List ℚ)).length =
      2 * m := by
    rw [List.length_append, hst1A, hA, hA2]
    omega
  have hfail : (add_slack_variables
      { (set_simplex_input initSolver A b c).1 with
        A := (set_simplex_input initSolver A b c).1.A ++ A2, b := b2, c := c2,
        tableau := (set_simplex_input initSolver A b c).1.A ++ A2 }).2 = false := by
    rw [add_slack_variables_eq]
    dsimp only
    refine addSlackAux_fails _ _ _ 0 ?_ ?_ ?_
    · intro hc
      rw [hc] at hlen2
      simp at hlen2
      omega
    · rw [hb2, hlen2]
      omega
    · rw [generate_identity_length]
      omega
  have hctf := create_tableau_of_fail
    { (set_simplex_input initSolver A b c).1 with
      A := (set_simplex_input initSolver A b c).1.A ++ A2, b := b2, c := c2 } hfail
  have hssf := set_simplex_input_of_fail (set_simplex_input initSolver A b c).1 A2 b2 c2
    (by rw [hctf])
  rw [hssf, hctf]
  obtain ⟨hA3, hb3, hc3, he3, hd3⟩ := add_slack_variables_fields
    { (set_simplex_input initSolver A b c).1 with
      A := (set_simplex_input initSolver A b c).1.A ++ A2, b := b2, c := c2,
      tableau := (set_simplex_input initSolver A b c).1.A ++ A2 }
  refine ⟨rfl, ?_, ?_, ?_, ?_, ?_⟩
  · rw [hA3]
    exact hlen2
  · rw [he3]
  · rw [hd3]
  · rw [hb3]
  · rw [hc3]

attribute [local semireducible] Rat.add Rat.mul Rat.inv Rat.sub in
/-- Witness for `setup_reuse_appends_and_fails` with the 1×1 problem
`A=[[1]]`, `b=[1]`, `c=[1]` used twice. -/
theorem setup_reuse_appends_and_fails_witness :
    (set_simplex_input (set_simplex_input initSolver [[1]] [1] [1]).1 [[1]] [1] [1]).2 = false ∧
    (set_simplex_input (set_simplex_input initSolver [[1]] [1] [1]).1 [[1]] [1] [1]).1.A.length =
      2 * 1 ∧
    (set_simplex_input (set_simplex_input initSolver [[1]] [1] [1]).1 [[1]] [1] [1]).1.entering =
      (set_simplex_input initSolver [[1]] [1] [1]).1.entering ∧
    (set_simplex_input (set_simplex_input initSolver [[1]] [1] [1]).1 [[1]] [1] [1]).1.departing =
      (set_simplex_input initSolver [[1]] [1] [1]).1.departing ∧
    (set_simplex_input (set_simplex_input initSolver [[1]] [1] [1]).1 [[1]] [1] [1]).1.b =
      [(1:ℚ)] ∧
    (set_simplex_input (set_simplex_input initSolver [[1]] [1] [1]).1 [[1]] [1] [1]).1.c =
      [(1:ℚ)] :=
  setup_reuse_appends_and_fails [[1]] [[1]] [1] [1] [1] [1] 1 (by decide) (by decide)
    (by decide) (by decide)

end SimplexVerify
